import Mathlib

/-!
Verification development for the safety subsystem of clearcli
(src/safety: QuarantineManager, SafetyManager, TrashManager and the per-OS
trash providers).  The TypeScript sources are shallowly embedded as pure
Lean functions over an explicit filesystem/state model; asynchronous
filesystem calls become reads/updates of that state, exceptions become
Option/Except results or explicit outcome oracles, and every definition is
executable.
-/

namespace ClearCli

/-- Filesystem object as observed by the safety layer.  The source inspects
an object only through fs.stat (isDirectory, size), fs.readdir (immediate
child count, used by isLargeDirectory) and moves whole objects with
fs.rename, so an object is modelled by those observations: isDir mirrors
stats.isDirectory(), size is the byte size that calculateSize /
getDirectorySize report for the object (for a directory, the recursive sum
over its contents, stored here as one number), and childCount is the number
of immediate children readdir would list (0 for a file). -/
structure FSObj where
  isDir : Bool
  size : Nat
  childCount : Nat
  deriving DecidableEq, Repr

/-- Filesystem model: a finite association from absolute, already-resolved
paths to objects.  Each key is the root path of an independent object; the
operations under study never address a path nested inside another tracked
object, so tracked objects move independently, exactly as fs.rename moves
them. -/
abbrev FS := List (String × FSObj)

/-- Mirrors fs.stat: the object at an exact path, if present. -/
def FS.stat : FS → String → Option FSObj
  | [], _ => none
  | kv :: t, p => if kv.1 = p then some kv.2 else FS.stat t p

/-- Mirrors the fs.access existence probe (the pathExists helpers of the
source). -/
def FS.pathExists (fs : FS) (p : String) : Bool :=
  (FS.stat fs p).isSome

/-- Drop the binding at a path: the source object of a rename, or an object
removed by fs.rm. -/
def FS.removeKey : FS → String → FS
  | [], _ => []
  | kv :: t, p => if kv.1 = p then FS.removeKey t p else kv :: FS.removeKey t p

/-- Mirrors fs.rename src dst: the object bound at src is rebound at dst,
replacing anything at dst (as POSIX rename does).  When src is absent
nothing happens; the source only calls rename after observing the object,
so that case is never reached in the claims below. -/
def FS.rename (fs : FS) (src dst : String) : FS :=
  match FS.stat fs src with
  | none => fs
  | some o => (dst, o) :: FS.removeKey (FS.removeKey fs src) dst

theorem FS.stat_nil (p : String) : FS.stat [] p = none := rfl

theorem FS.stat_cons (kv : String × FSObj) (fs : FS) (p : String) :
    FS.stat (kv :: fs) p = if kv.1 = p then some kv.2 else FS.stat fs p := rfl

theorem FS.stat_removeKey_self (fs : FS) (p : String) :
    FS.stat (FS.removeKey fs p) p = none := by
  induction fs with
  | nil => rfl
  | cons kv t ih =>
    by_cases h : kv.1 = p
    · simpa [FS.removeKey, h] using ih
    · simpa [FS.removeKey, FS.stat, h] using ih

theorem FS.stat_removeKey_ne (fs : FS) (p q : String) (h : q ≠ p) :
    FS.stat (FS.removeKey fs p) q = FS.stat fs q := by
  induction fs with
  | nil => rfl
  | cons kv t ih =>
    by_cases hk : kv.1 = p
    · simpa [FS.removeKey, FS.stat, hk, Ne.symm h] using ih
    · by_cases hq : kv.1 = q
      · simp [FS.removeKey, FS.stat, hk, hq, h]
      · simpa [FS.removeKey, FS.stat, hk, hq] using ih

theorem FS.stat_rename_dst (fs : FS) (src dst : String)
    (h : (FS.stat fs src).isSome) :
    FS.stat (FS.rename fs src dst) dst = FS.stat fs src := by
  cases hs : FS.stat fs src with
  | none => simp [hs] at h
  | some o => simp [FS.rename, hs, FS.stat_cons]

theorem FS.stat_rename_src (fs : FS) (src dst : String) (h : src ≠ dst) :
    FS.stat (FS.rename fs src dst) src = none := by
  cases hs : FS.stat fs src with
  | none => simp [FS.rename, hs]
  | some o =>
    simp only [FS.rename, hs]
    rw [FS.stat_cons]
    simp only [if_neg (Ne.symm h)]
    rw [FS.stat_removeKey_ne _ _ _ h, FS.stat_removeKey_self]

theorem FS.stat_rename_other (fs : FS) (src dst q : String)
    (h1 : q ≠ src) (h2 : q ≠ dst) :
    FS.stat (FS.rename fs src dst) q = FS.stat fs q := by
  cases hs : FS.stat fs src with
  | none => simp [FS.rename, hs]
  | some o =>
    simp only [FS.rename, hs]
    rw [FS.stat_cons]
    simp only [if_neg (Ne.symm h2)]
    rw [FS.stat_removeKey_ne _ _ _ h2, FS.stat_removeKey_ne _ _ _ h1]

/-! ## Path Safety Validator (SafetyManager.validatePaths and helpers)

Input paths are taken to be absolute and already normalized, so the
source's resolve(path) is the identity and is not reproduced.  The
validator performs only read syscalls (fs.access, fs.stat, fs.readdir, and
an open/close probe in isActiveFile), so its embedding is a pure function
of the filesystem: mutation-freedom and the absence of escaping exceptions
are by construction, matching the per-path try/catch structure of the
source. -/

/-- Configuration of SafetyManager: the platform deny-list built by
initializeSystemPaths, the user home directory (homedir()), and the set of
paths for which the exclusive-open probe of isActiveFile reports
EBUSY/ETXTBSY (an oracle for the one observation the model cannot derive
from the filesystem map). -/
structure SafetyConfig where
  systemPaths : List String
  homedir : String
  busyPaths : List String
  deriving DecidableEq, Repr

/-- Does pat occur as a contiguous run of l?  Helper for the javascript
String.includes and String.replace tests, written over character lists so
that every proof obligation evaluates. -/
def hasInfixChars (l pat : List Char) : Bool :=
  pat.isPrefixOf l ||
    match l with
    | [] => false
    | _ :: xs => hasInfixChars xs pat

/-- Mirrors the javascript String.includes test used by isSystemPath. -/
def containsSub (s sub : String) : Bool :=
  hasInfixChars s.data sub.data

/-- Mirrors the javascript String.startsWith test. -/
def startsWithSub (s sub : String) : Bool :=
  sub.data.isPrefixOf s.data

/-- Split a character list at every occurrence of c, keeping empty pieces,
as the javascript String.split with a one-character separator does. -/
def splitOnCharAux (c : Char) : List Char → List Char → List (List Char)
  | [], acc => [acc.reverse]
  | x :: xs, acc =>
    if x == c then acc.reverse :: splitOnCharAux c xs []
    else splitOnCharAux c xs (x :: acc)

/-- Mirrors the javascript s.split(c) for a one-character separator. -/
def splitOnChar (c : Char) (s : String) : List String :=
  (splitOnCharAux c s.data []).map (fun l => String.mk l)

/-- The root-level directory names of the defense-in-depth check inside
isSystemPath. -/
def systemDirNames : List String :=
  ["bin", "sbin", "usr", "etc", "boot", "dev", "proc", "sys"]

/-- Mirrors resolvedPath.split('/').filter(Boolean). -/
def pathParts (p : String) : List String :=
  (splitOnChar '/' p).filter (fun s => s != "")

/-- SafetyManager.isSystemPath: temp/home locations are allowed, then the
static deny-list is consulted by prefix, then a root-level directory whose
single segment is a known system directory name is blocked; a failing stat
means the path is not assumed to be a system path. -/
def isSystemPath (cfg : SafetyConfig) (fs : FS) (path : String) : Bool :=
  if containsSub path "/tmp/" || containsSub path cfg.homedir ||
      containsSub path "/var/folders/" then
    false
  else if cfg.systemPaths.any (fun sp => startsWithSub path sp) then
    true
  else
    match FS.stat fs path with
    | some o =>
      if o.isDir then
        match pathParts path with
        | [name] => systemDirNames.contains name
        | _ => false
      else false
    | none => false

/-- The deny-list of SafetyManager.isCriticalDirectory. -/
def criticalDirs : List String :=
  [".git", "node_modules", ".vscode", ".idea", "package.json",
   "package-lock.json", "yarn.lock", "Cargo.toml", "requirements.txt",
   "pom.xml"]

/-- Mirrors path.split('/').pop() with the || '' fallback of the source. -/
def lastComponent (p : String) : String :=
  (splitOnChar '/' p).getLastD ""

/-- SafetyManager.isCriticalDirectory. -/
def isCriticalDirectory (p : String) : Bool :=
  criticalDirs.contains (lastComponent p)

/-- SafetyManager.isLargeDirectory: a directory with more than 1000
immediate children. -/
def isLargeDirectory (fs : FS) (p : String) : Bool :=
  match FS.stat fs p with
  | some o => o.isDir && decide (1000 < o.childCount)
  | none => false

/-- SafetyManager.isActiveFile, via the busy-path oracle of the
configuration. -/
def isActiveFile (cfg : SafetyConfig) (p : String) : Bool :=
  cfg.busyPaths.contains p

/-- The SafetyValidationResult record of types.ts. -/
structure SafetyValidationResult where
  isValid : Bool
  warnings : List String
  blockers : List String
  systemPaths : List String
  deriving DecidableEq, Repr

/-- One iteration of the validatePaths loop: a missing path degrades to a
warning and the loop continues; a system path is recorded as blocking and
the remaining checks are skipped; otherwise the critical, large and active
checks each may add a warning. -/
def validateStep (cfg : SafetyConfig) (fs : FS)
    (r : SafetyValidationResult) (path : String) : SafetyValidationResult :=
  if !FS.pathExists fs path then
    { r with warnings := r.warnings ++ [s!"Path does not exist: {path}"] }
  else if isSystemPath cfg fs path then
    { r with systemPaths := r.systemPaths ++ [path],
             blockers := r.blockers ++ [s!"System path detected: {path}"],
             isValid := false }
  else
    let r1 := if isCriticalDirectory path then
      { r with warnings := r.warnings ++ [s!"Critical directory detected: {path}"] }
    else r
    let r2 := if isLargeDirectory fs path then
      { r1 with warnings := r1.warnings ++ [s!"Large directory detected: {path} (may take time to process)"] }
    else r1
    if isActiveFile cfg path then
      { r2 with warnings := r2.warnings ++ [s!"File may be in use: {path}"] }
    else r2

/-- SafetyManager.validatePaths: fold of validateStep from the all-clear
initial result. -/
def validatePaths (cfg : SafetyConfig) (fs : FS) (paths : List String) :
    SafetyValidationResult :=
  paths.foldl (validateStep cfg fs)
    { isValid := true, warnings := [], blockers := [], systemPaths := [] }

/-- A path the validator records as blocking: it exists and is a system
path. -/
def isBlockingB (cfg : SafetyConfig) (fs : FS) (p : String) : Bool :=
  FS.pathExists fs p && isSystemPath cfg fs p

theorem validateStep_systemPaths (cfg : SafetyConfig) (fs : FS)
    (r : SafetyValidationResult) (p : String) :
    (validateStep cfg fs r p).systemPaths =
      r.systemPaths ++ (if isBlockingB cfg fs p then [p] else []) := by
  unfold validateStep isBlockingB
  by_cases he : FS.pathExists fs p <;>
    by_cases hs : isSystemPath cfg fs p <;>
      simp [he, hs] <;>
        (by_cases h1 : isCriticalDirectory p <;>
          by_cases h2 : isLargeDirectory fs p <;>
            by_cases h3 : isActiveFile cfg p <;> simp [h1, h2, h3])

theorem validateStep_isValid (cfg : SafetyConfig) (fs : FS)
    (r : SafetyValidationResult) (p : String) :
    (validateStep cfg fs r p).isValid =
      (r.isValid && !isBlockingB cfg fs p) := by
  unfold validateStep isBlockingB
  by_cases he : FS.pathExists fs p <;>
    by_cases hs : isSystemPath cfg fs p <;>
      simp [he, hs] <;>
        (by_cases h1 : isCriticalDirectory p <;>
          by_cases h2 : isLargeDirectory fs p <;>
            by_cases h3 : isActiveFile cfg p <;> simp [h1, h2, h3])

theorem validateStep_warnings_mono (cfg : SafetyConfig) (fs : FS)
    (r : SafetyValidationResult) (p : String) (w : String)
    (hw : w ∈ r.warnings) : w ∈ (validateStep cfg fs r p).warnings := by
  unfold validateStep
  by_cases he : FS.pathExists fs p <;>
    by_cases hs : isSystemPath cfg fs p <;>
      simp [he, hs] <;>
        (by_cases h1 : isCriticalDirectory p <;>
          by_cases h2 : isLargeDirectory fs p <;>
            by_cases h3 : isActiveFile cfg p <;>
              simp [h1, h2, h3, hw])

theorem validateStep_missing_warning (cfg : SafetyConfig) (fs : FS)
    (r : SafetyValidationResult) (p : String)
    (he : FS.pathExists fs p = false) :
    s!"Path does not exist: {p}" ∈ (validateStep cfg fs r p).warnings := by
  unfold validateStep
  simp [he]

theorem foldl_validateStep_systemPaths (cfg : SafetyConfig) (fs : FS) :
    ∀ (ps : List String) (r : SafetyValidationResult),
      (ps.foldl (validateStep cfg fs) r).systemPaths =
        r.systemPaths ++ ps.filter (isBlockingB cfg fs) := by
  intro ps
  induction ps with
  | nil => intro r; simp
  | cons p t ih =>
    intro r
    rw [List.foldl_cons, ih, validateStep_systemPaths]
    by_cases hb : isBlockingB cfg fs p <;> simp [hb, List.filter_cons]

theorem foldl_validateStep_isValid (cfg : SafetyConfig) (fs : FS) :
    ∀ (ps : List String) (r : SafetyValidationResult),
      (ps.foldl (validateStep cfg fs) r).isValid =
        (r.isValid && ps.all (fun p => !isBlockingB cfg fs p)) := by
  intro ps
  induction ps with
  | nil => intro r; simp
  | cons p t ih =>
    intro r
    rw [List.foldl_cons, ih, validateStep_isValid]
    by_cases hb : isBlockingB cfg fs p <;> simp [hb, List.all_cons]

theorem foldl_validateStep_warnings_mono (cfg : SafetyConfig) (fs : FS) :
    ∀ (ps : List String) (r : SafetyValidationResult) (w : String),
      w ∈ r.warnings → w ∈ (ps.foldl (validateStep cfg fs) r).warnings := by
  intro ps
  induction ps with
  | nil => intro r w hw; simpa using hw
  | cons p t ih =>
    intro r w hw
    rw [List.foldl_cons]
    exact ih _ _ (validateStep_warnings_mono cfg fs r p w hw)

theorem foldl_validateStep_missing (cfg : SafetyConfig) (fs : FS) :
    ∀ (ps : List String) (r : SafetyValidationResult) (p : String),
      p ∈ ps → FS.pathExists fs p = false →
      s!"Path does not exist: {p}" ∈ (ps.foldl (validateStep cfg fs) r).warnings := by
  intro ps
  induction ps with
  | nil => intro r p hp; simp at hp
  | cons q t ih =>
    intro r p hp he
    rw [List.foldl_cons]
    rcases List.mem_cons.mp hp with h | h
    · subst h
      exact foldl_validateStep_warnings_mono cfg fs t _ _
        (validateStep_missing_warning cfg fs r p he)
    · exact ih _ p h he

theorem validatePaths_systemPaths (cfg : SafetyConfig) (fs : FS)
    (paths : List String) :
    (validatePaths cfg fs paths).systemPaths =
      paths.filter (isBlockingB cfg fs) := by
  unfold validatePaths
  rw [foldl_validateStep_systemPaths]
  simp

theorem validatePaths_isValid (cfg : SafetyConfig) (fs : FS)
    (paths : List String) :
    (validatePaths cfg fs paths).isValid =
      paths.all (fun p => !isBlockingB cfg fs p) := by
  unfold validatePaths
  rw [foldl_validateStep_isValid]
  simp

/-! ## Quarantine Store (QuarantineManager)

The durable index is modelled as part of the state: loadIndex/saveIndex
round-trip the whole structure, so a run of operations against one manager
is a run of pure state transitions.  randomUUID is modelled by a freshness
counter (nextId); the uniqueness that UUIDs provide in the source appears
as explicit freshness hypotheses in the theorems.  new Date() is the
state's clock `now` (an integer timestamp measured in days, matching the
day-granular arithmetic of cleanup).  mkdir calls create directories that
the flat path map does not track, so they are no-ops here. -/

/-- The QuarantineEntry record of types.ts; metadata is reduced to the
fields the claims mention (type as isDir). -/
structure QEntry where
  id : String
  originalPath : String
  quarantinePath : String
  movedAt : Int
  size : Nat
  isDir : Bool
  deriving DecidableEq, Repr

/-- State of one QuarantineManager: the filesystem, the persisted index
entries (Object.values order, i.e. insertion order), the UUID freshness
counter and the clock. -/
structure QState where
  fs : FS
  entries : List QEntry
  nextId : Nat
  now : Int
  deriving DecidableEq, Repr

/-- Mirrors path.basename on a normalized absolute path. -/
def basename (p : String) : String :=
  (splitOnChar '/' p).getLastD ""

/-- The quarantine target `${quarantineDir}/${id}_${fileName}` of
quarantineFile. -/
def mkQuarantinePath (qdir : String) (n : Nat) (p : String) : String :=
  qdir ++ "/" ++ toString n ++ "_" ++ basename p

/-- QuarantineManager.quarantineFile: stat the source (a failing stat
throws, surfacing as none, and the caller skips the path), build the entry,
and move the object under the quarantine directory.  The source computes
size by calculateSize(quarantinePath) after the move; rename transports the
object unchanged, so that equals the stat size here. -/
def quarantineFile (qdir : String) (st : QState) (p : String) :
    Option (QEntry × QState) :=
  match FS.stat st.fs p with
  | none => none
  | some obj =>
    let qp := mkQuarantinePath qdir st.nextId p
    let entry : QEntry :=
      { id := toString st.nextId, originalPath := p, quarantinePath := qp,
        movedAt := st.now, size := obj.size, isDir := obj.isDir }
    some (entry, { st with fs := FS.rename st.fs p qp, nextId := st.nextId + 1 })

/-- One iteration of the quarantine loop: a failure is logged and skipped,
a success appends the entry to the returned list and to the index. -/
def quarantineStep (qdir : String) (acc : List QEntry × QState) (p : String) :
    List QEntry × QState :=
  match quarantineFile qdir acc.2 p with
  | none => acc
  | some (e, st1) => (acc.1 ++ [e], { st1 with entries := st1.entries ++ [e] })

/-- QuarantineManager.quarantine: empty input returns immediately;
otherwise each path is attempted in order and the updated index is
persisted at the end (persistence is the state itself here). -/
def quarantine (qdir : String) (st : QState) (paths : List String) :
    List QEntry × QState :=
  if paths.isEmpty then ([], st)
  else paths.foldl (quarantineStep qdir) ([], st)

/-- Replace the first occurrence of pat in l by sub, as the javascript
String.replace with a string pattern does. -/
def replaceFirstChars (pat sub : List Char) : List Char → List Char
  | [] => []
  | x :: xs =>
    if pat.isPrefixOf (x :: xs) then sub ++ (x :: xs).drop pat.length
    else x :: replaceFirstChars pat sub xs

/-- Mirrors the javascript s.replace(pat, sub) for plain string patterns
(only the first occurrence is replaced). -/
def replaceFirst (s pat sub : String) : String :=
  String.mk (replaceFirstChars pat.data sub.data s.data)

/-- The `${baseName}_restored_${counter}${ext}` candidate that the restore
conflict loop builds from the entry's originalPath. -/
def restoredVariant (orig : String) (counter : Nat) : String :=
  let ext := if containsSub orig "." then (splitOnChar '.' orig).getLastD "" else ""
  let base := if ext != "" then replaceFirst orig ("." ++ ext) "" else orig
  base ++ "_restored_" ++ toString counter ++ (if ext != "" then "." ++ ext else "")

/-- The while-loop of restore that searches for a free restore target.  The
source loops until a free name is found; the model carries fuel one larger
than the number of tracked objects, which the claims never exhaust. -/
def restoreGo (fs : FS) (orig : String) : Nat → String → Nat → String
  | 0, cur, _ => cur
  | fuel + 1, cur, counter =>
    if FS.pathExists fs cur then
      restoreGo fs orig fuel (restoredVariant orig counter) (counter + 1)
    else cur

/-- QuarantineManager.restore: an unknown id or a vanished quarantined
object fails (the thrown error is caught and returned as false); otherwise
the object is moved to the conflict-resolved target and the entry leaves
the index. -/
def restore (st : QState) (entryId : String) : Bool × QState :=
  match st.entries.find? (fun e => e.id == entryId) with
  | none => (false, st)
  | some e =>
    if !FS.pathExists st.fs e.quarantinePath then (false, st)
    else
      let rpath := restoreGo st.fs e.originalPath (st.fs.length + 1) e.originalPath 1
      (true, { st with fs := FS.rename st.fs e.quarantinePath rpath,
                       entries := st.entries.filter (fun x => x.id != entryId) })

/-- QuarantineManager.listQuarantine: the values of the persisted index. -/
def listQuarantine (st : QState) : List QEntry :=
  st.entries

/-- QuarantineManager.getTotalSize. -/
def getTotalSize (st : QState) : Nat :=
  (st.entries.map (fun e => e.size)).sum

/-- One iteration of the cleanup loop over (count, ids to remove, fs): an
entry older than the cutoff is deleted from disk and marked for removal
unless the rm fails (rmFail is the oracle for fs.rm errors), in which case
it is logged and kept. -/
def cleanupStep (rmFail : List String) (cutoff : Int)
    (acc : Nat × List String × FS) (e : QEntry) : Nat × List String × FS :=
  if e.movedAt < cutoff then
    if rmFail.contains e.quarantinePath then acc
    else (acc.1 + 1, acc.2.1 ++ [e.id], FS.removeKey acc.2.2 e.quarantinePath)
  else acc

/-- QuarantineManager.cleanup: cutoff is now minus the retention period;
every entry strictly older is deleted and dropped from the index, and the
count of deletions is returned. -/
def cleanup (rmFail : List String) (st : QState) (retentionDays : Int) :
    Nat × QState :=
  let cutoff := st.now - retentionDays
  let res := st.entries.foldl (cleanupStep rmFail cutoff) (0, [], st.fs)
  (res.1, { st with fs := res.2.2,
                    entries := st.entries.filter (fun e => !res.2.1.contains e.id) })

/-- One iteration of the clearAll loop: delete the quarantined object,
counting successes; an rm failure is logged and skipped. -/
def clearAllStep (rmFail : List String) (acc : Nat × FS) (e : QEntry) :
    Nat × FS :=
  if rmFail.contains e.quarantinePath then acc
  else (acc.1 + 1, FS.removeKey acc.2 e.quarantinePath)

/-- QuarantineManager.clearAll: attempt to delete every quarantined object,
then reset the index to empty unconditionally. -/
def clearAll (rmFail : List String) (st : QState) : Nat × QState :=
  let res := st.entries.foldl (clearAllStep rmFail) (0, st.fs)
  (res.1, { st with fs := res.2, entries := [] })

/-- One restore call inside a run of restores: record the boolean result
and carry the state. -/
def restoreAllStep (acc : List Bool × QState) (i : String) : List Bool × QState :=
  (acc.1 ++ [(restore acc.2 i).1], (restore acc.2 i).2)

/-- Restore a list of ids in order, collecting each call's boolean
result. -/
def restoreAll (st : QState) (ids : List String) : List Bool × QState :=
  ids.foldl restoreAllStep ([], st)

/-- The entries a successful quarantine run over ps produces, written out
against the starting filesystem: ids and quarantine targets are numbered
from n, and size/isDir are read off the object at each path. -/
def specEntries (qdir : String) (fs : FS) (now : Int) :
    Nat → List String → List QEntry
  | _, [] => []
  | n, p :: ps =>
    { id := toString n, originalPath := p,
      quarantinePath := mkQuarantinePath qdir n p, movedAt := now,
      size := (FS.stat fs p).elim 0 (fun o => o.size),
      isDir := (FS.stat fs p).elim false (fun o => o.isDir) } ::
      specEntries qdir fs now (n + 1) ps

/-! ## Trash providers

The providers shell out to external utilities; the model abstracts each
external invocation to its outcome while keeping the provider's own control
flow exact. -/

/-- Outcome of the two macOS mechanisms for one path: osaOk is whether the
osascript Finder-delete succeeds, fallbackOk whether fallbackMoveToTrash
(the manual move into the user trash directory) completes rather than
throwing. -/
structure MacPathBehavior where
  osaOk : Bool
  fallbackOk : Bool
  deriving DecidableEq, Repr

/-- MacOSTrash.moveToTrash over a batch paired with each path's mechanism
outcomes.  Per path, the inner try runs osascript and on its failure awaits
the manual fallback; an exception from the fallback escapes the loop to the
outer catch, which logs and returns false.  Returns (reported success,
paths the loop reached, paths whose object actually reached the trash). -/
def macMoveToTrash : List (String × MacPathBehavior) → Bool × List String × List String
  | [] => (true, [], [])
  | (p, b) :: rest =>
    if b.osaOk || b.fallbackOk then
      let r := macMoveToTrash rest
      (r.1, p :: r.2.1, p :: r.2.2)
    else (false, [p], [])

/-- Behaviour of the platform provider selected once by
TrashManager.createProvider: whether its isSupported() holds and what its
moveToTrash reports for the batch handed to it. -/
structure ProviderBehavior where
  supported : Bool
  moveResult : Bool
  deriving DecidableEq, Repr

/-- TrashManager.moveToTrash: an unsupported provider throws (Except.error),
an empty batch returns true before the provider is consulted, otherwise the
provider's verdict is returned.  The second component records whether the
provider's moveToTrash was invoked. -/
def trashManagerMoveToTrash (p : ProviderBehavior) (paths : List String) :
    Except String Bool × Bool :=
  if !p.supported then
    (Except.error "Trash functionality not supported on this platform", false)
  else if paths.isEmpty then (Except.ok true, false)
  else (Except.ok p.moveResult, true)

/-! ## Deletion Orchestrator (SafetyManager.safeDelete) -/

/-- The method tag of a DeletionResult. -/
inductive Method where
  | trash
  | quarantine
  deriving DecidableEq, Repr

/-- The DeletionOptions record of types.ts with the defaults the source
destructures (useTrash true, the rest false). -/
structure DeletionOptions where
  dryRun : Bool := false
  useTrash : Bool := true
  skipConfirmation : Bool := false
  retainInQuarantine : Bool := false
  interactive : Bool := false
  deriving DecidableEq, Repr

/-- The DeletionResult record of types.ts. -/
structure DeletionResult where
  success : Bool
  processedPaths : List String
  failedPaths : List String
  totalSize : Nat
  method : Method
  dryRun : Bool
  errors : List String
  deriving DecidableEq, Repr

/-- Outcome of the one trashManager.moveToTrash call safeDelete makes:
reported true, reported false, or an exception reaching safeDelete's
catch. -/
inductive TrashOutcome where
  | ok
  | failed
  | threw
  deriving DecidableEq, Repr

/-- Behaviour of the external mechanisms during one safeDelete run:
supported mirrors trashManager.isSupported(), outcome the moveToTrash call,
and quarantineThrows whether quarantineManager.quarantine throws before its
per-path loop (e.g. mkdir failure), reaching processQuarantine's catch. -/
structure MechanismBehavior where
  supported : Bool
  outcome : TrashOutcome
  quarantineThrows : Bool
  deriving DecidableEq, Repr

/-- SafetyManager.calculatePathSize: stat size for a file, recursive sum
for a directory (the stored size, see FSObj), 0 when stat fails. -/
def calculatePathSize (fs : FS) (p : String) : Nat :=
  match FS.stat fs p with
  | some o => o.size
  | none => 0

/-- The size accumulation loop of safeDelete over the surviving paths. -/
def sumSizes (fs : FS) (ps : List String) : Nat :=
  (ps.map (calculatePathSize fs)).sum

/-- SafetyManager.processQuarantine: a throwing quarantine run appends an
error and pushes the batch into failedPaths; otherwise the quarantined
originals become processedPaths and the run is marked successful. -/
def processQuarantine (beh : MechanismBehavior) (qdir : String)
    (paths : List String) (result : DeletionResult) (st : QState) :
    DeletionResult × QState :=
  if beh.quarantineThrows then
    ({ result with
        errors := result.errors ++ ["Quarantine operation failed: quarantine error"],
        failedPaths := result.failedPaths ++ paths }, st)
  else
    let q := quarantine qdir st paths
    ({ result with processedPaths := (q.1.map (fun e => e.originalPath)),
                   success := true }, q.2)

/-- SafetyManager.safeDelete.  A successful trash run moves the batch out
of the tracked filesystem (into the OS trash, outside the model); a failed
or throwing one leaves it for the quarantine fallback.  After routing, the
source overwrites failedPaths with the system paths found by validation. -/
def safeDelete (cfg : SafetyConfig) (beh : MechanismBehavior) (qdir : String)
    (st : QState) (paths : List String) (opts : DeletionOptions) :
    DeletionResult × QState :=
  let method0 := if opts.useTrash && beh.supported then Method.trash else Method.quarantine
  let base : DeletionResult :=
    { success := false, processedPaths := [], failedPaths := [], totalSize := 0,
      method := method0, dryRun := opts.dryRun, errors := [] }
  if paths.isEmpty then ({ base with success := true }, st)
  else
    let validation := validatePaths cfg st.fs paths
    if !validation.isValid && !opts.skipConfirmation then
      ({ base with errors :=
          ["Validation failed: " ++ String.intercalate ", " validation.blockers] }, st)
    else
      let validPaths := paths.filter (fun p => !validation.systemPaths.contains p)
      let total := sumSizes st.fs validPaths
      if opts.dryRun then
        ({ base with success := true, processedPaths := validPaths,
                     failedPaths := validation.systemPaths, totalSize := total }, st)
      else if validPaths.isEmpty then
        ({ base with failedPaths := paths, totalSize := total,
                     errors := ["No valid paths to process"] }, st)
      else
        let routed :=
          if method0 = Method.trash ∧ beh.supported = true then
            match beh.outcome with
            | TrashOutcome.ok =>
              ({ base with success := true, processedPaths := validPaths,
                           totalSize := total },
               { st with fs := st.fs.filter (fun kv => !validPaths.contains kv.1) })
            | TrashOutcome.failed =>
              processQuarantine beh qdir validPaths
                { base with totalSize := total, method := Method.quarantine } st
            | TrashOutcome.threw =>
              processQuarantine beh qdir validPaths
                { base with totalSize := total, method := Method.quarantine,
                            errors := ["Trash operation failed: trash error"] } st
          else
            processQuarantine beh qdir validPaths { base with totalSize := total } st
        ({ routed.1 with failedPaths := validation.systemPaths }, routed.2)

/-! ## Confirmation Protocol -/

/-- The ConfirmationPrompt record of types.ts. -/
structure ConfirmationPrompt where
  message : String
  details : List String
  warnings : List String
  totalSize : Nat
  itemCount : Nat
  method : Method
  deriving DecidableEq, Repr

/-- The ConfirmationResult record of types.ts. -/
structure ConfirmationResult where
  confirmed : Bool
  skipFuture : Bool := false
  deriving DecidableEq, Repr

/-- SafetyManager.formatBytes.  The source picks the unit with a floating
log and rounds one decimal with toFixed; the model picks the unit by
thresholds and truncates the decimal exactly — the difference is confined
to the rendering of the digit and never reaches a proved property. -/
def formatBytes (bytes : Nat) : String :=
  if bytes = 0 then "0 B"
  else
    let i := if bytes < 1024 then 0
      else if bytes < 1024 ^ 2 then 1
      else if bytes < 1024 ^ 3 then 2
      else if bytes < 1024 ^ 4 then 3
      else 4
    let tenths := bytes * 10 / 1024 ^ i
    let whole := tenths / 10
    let frac := tenths % 10
    (if frac = 0 then toString whole else toString whole ++ "." ++ toString frac)
      ++ " " ++ (["B", "KB", "MB", "GB", "TB"].getD i "B")

/-- SafetyManager.generateConfirmationPrompt: re-validate and re-size, then
render the message (singular, plural, or the nothing-to-delete message,
always followed by the method clause), the detail list (all paths up to 10,
otherwise the first 8 plus a more-items marker) and the warnings
(validation warnings, a skipped-system-path count, and a 1GB threshold
notice). -/
def generateConfirmationPrompt (cfg : SafetyConfig) (beh : MechanismBehavior)
    (st : QState) (paths : List String) (opts : DeletionOptions) :
    ConfirmationPrompt :=
  let validation := validatePaths cfg st.fs paths
  let validPaths := paths.filter (fun p => !validation.systemPaths.contains p)
  let total := sumSizes st.fs validPaths
  let method := if opts.useTrash && beh.supported then Method.trash else Method.quarantine
  let itemCount := validPaths.length
  let sizeText := formatBytes total
  let msg0 :=
    if itemCount = 0 then "No valid items to delete."
    else if itemCount = 1 then
      let p0 := validPaths.headD ""
      let pop := (splitOnChar '/' p0).getLastD ""
      let itemName := if pop = "" then p0 else pop
      s!"Delete \"{itemName}\" ({sizeText})?"
    else s!"Delete {itemCount} items ({sizeText} total)?"
  let message := msg0 ++
    (if method = Method.trash then
      " Items will be moved to trash and can be restored from there."
    else " Items will be quarantined and can be restored using clearcli.")
  let details :=
    if validPaths.length ≤ 10 then validPaths.map (fun p => "• " ++ p)
    else (validPaths.take 8).map (fun p => "• " ++ p)
      ++ [s!"... and {validPaths.length - 8} more items"]
  let warnings := validation.warnings
    ++ (if 0 < validation.systemPaths.length then
        [s!"{validation.systemPaths.length} system paths will be skipped for safety"]
      else [])
    ++ (if 1024 * 1024 * 1024 < total then
        ["This operation will free more than 1GB of space"]
      else [])
  { message := message, details := details, warnings := warnings,
    totalSize := total, itemCount := itemCount, method := method }

/-- SafetyManager.safeDeleteWithConfirmation.  The callback is the UI's
decision function; the Bool in the result records whether it was invoked,
and the returned DeletionOptions are the caller's options after the
skip-future mutation.  In interactive mode with a callback and confirmation
not pre-skipped: a zero-item prompt short-circuits to a failed result, a
negative decision yields the cancelled result, and an affirmative decision
(possibly setting skipConfirmation for the session) falls through to
safeDelete. -/
def safeDeleteWithConfirmation (cfg : SafetyConfig) (beh : MechanismBehavior)
    (qdir : String) (st : QState) (paths : List String)
    (opts : DeletionOptions)
    (callback : Option (ConfirmationPrompt → ConfirmationResult)) :
    DeletionResult × QState × Bool × DeletionOptions :=
  match callback with
  | some cb =>
    if opts.interactive && !opts.skipConfirmation then
      let prompt := generateConfirmationPrompt cfg beh st paths opts
      if prompt.itemCount = 0 then
        ({ success := false, processedPaths := [], failedPaths := paths,
           totalSize := 0, method := prompt.method, dryRun := false,
           errors := ["No valid items to delete"] }, st, false, opts)
      else
        let conf := cb prompt
        if !conf.confirmed then
          ({ success := false, processedPaths := [], failedPaths := paths,
             totalSize := prompt.totalSize, method := prompt.method,
             dryRun := false, errors := ["Operation cancelled by user"] },
           st, true, opts)
        else
          let opts1 := if conf.skipFuture then
            { opts with skipConfirmation := true } else opts
          let r := safeDelete cfg beh qdir st paths opts1
          (r.1, r.2, true, opts1)
    else
      let r := safeDelete cfg beh qdir st paths opts
      (r.1, r.2, false, opts)
  | none =>
    let r := safeDelete cfg beh qdir st paths opts
    (r.1, r.2, false, opts)

/-! ## Supporting lemmas -/

theorem foldl_clearAllStep_count (rmFail : List String) :
    ∀ (es : List QEntry) (acc : Nat × FS),
      (es.foldl (clearAllStep rmFail) acc).1 =
        acc.1 + (es.filter (fun e => !rmFail.contains e.quarantinePath)).length := by
  intro es
  induction es with
  | nil => intro acc; simp
  | cons e t ih =>
    intro acc
    by_cases h : e.quarantinePath ∈ rmFail
    · simp [clearAllStep, h, List.filter_cons, ih]
    · simp [clearAllStep, h, List.filter_cons, ih]
      omega

theorem length_filter_lt_of_mem_not {α : Type} (l : List α) (p : α → Bool)
    (x : α) (hx : x ∈ l) (hpx : p x = false) :
    (l.filter p).length < l.length := by
  induction l with
  | nil => cases hx
  | cons y t ih =>
    rcases List.mem_cons.mp hx with rfl | hmem
    · simp only [List.filter_cons, hpx, Bool.false_eq_true, if_false, List.length_cons]
      exact Nat.lt_succ_of_le (List.length_filter_le _ t)
    · by_cases hy : p y
      · simp only [List.filter_cons, hy, if_true, List.length_cons]
        exact Nat.succ_lt_succ (ih hmem)
      · simp only [List.filter_cons, hy, Bool.false_eq_true, if_false, List.length_cons]
        exact Nat.lt_succ_of_lt (ih hmem)

/-! ## Claim theorems -/

/-- C1 (as stated): in a trash provider batch, every path is attempted
independently, and false is returned only when no mechanism succeeded for
any path of the batch. -/
def trashBatchIndependenceClaim (batch : List (String × MacPathBehavior)) : Prop :=
  (∀ pb ∈ batch, pb.1 ∈ (macMoveToTrash batch).2.1)
  ∧ ((macMoveToTrash batch).1 = false → (macMoveToTrash batch).2.2 = [])

/-- A three-path batch for the macOS provider: the first path succeeds via
osascript, the second fails both mechanisms, the third would succeed. -/
def c1Batch : List (String × MacPathBehavior) :=
  [("/tmp/a", { osaOk := true, fallbackOk := true }),
   ("/tmp/b", { osaOk := false, fallbackOk := false }),
   ("/tmp/c", { osaOk := true, fallbackOk := true })]

/-- C1 is false on the code: when the second path's fallback throws, the
batch aborts — the third path is never attempted and the call returns
false although the first path's object already reached the trash. -/
theorem mac_moveToTrash_independence_counterexample :
    ¬ trashBatchIndependenceClaim c1Batch := by
  unfold trashBatchIndependenceClaim
  decide

/-- C1 (amended): each path of the batch is attempted in order, a native
failure falls back to the per-path manual mechanism, but a path whose
fallback also fails aborts the batch: the loop reaches exactly the batch
prefix up to and including the first doubly-failing path, the paths moved
are exactly the prefix before it, and the call reports true iff some
mechanism succeeds for every path (so false can be reported while earlier
paths were already moved). -/
theorem mac_moveToTrash_batch_spec (batch : List (String × MacPathBehavior)) :
    (macMoveToTrash batch).1 = batch.all (fun pb => pb.2.osaOk || pb.2.fallbackOk)
    ∧ (macMoveToTrash batch).2.2 =
        (batch.takeWhile (fun pb => pb.2.osaOk || pb.2.fallbackOk)).map (fun pb => pb.1)
    ∧ (macMoveToTrash batch).2.1 =
        (batch.take
          ((batch.takeWhile (fun pb => pb.2.osaOk || pb.2.fallbackOk)).length + 1)).map
          (fun pb => pb.1) := by
  induction batch with
  | nil => simp [macMoveToTrash]
  | cons pb rest ih =>
    obtain ⟨p, b⟩ := pb
    by_cases h : (b.osaOk || b.fallbackOk) = true
    · simp only [macMoveToTrash, h, if_true, List.all_cons, List.takeWhile_cons, Bool.true_and,
        List.length_cons, List.take_succ_cons, List.map_cons]
      exact ⟨ih.1, by rw [ih.2.1], by rw [ih.2.2]⟩
    · simp [macMoveToTrash, h, List.takeWhile_cons]

/-- C10: TrashManager.moveToTrash throws for an unsupported provider
(rather than returning false), and on a supported provider an empty batch
returns true without consulting the provider. -/
theorem trashManager_moveToTrash_spec (p : ProviderBehavior) (paths : List String) :
    (p.supported = false →
      trashManagerMoveToTrash p paths =
        (Except.error "Trash functionality not supported on this platform", false))
    ∧ (p.supported = true → paths = [] →
        trashManagerMoveToTrash p paths = (Except.ok true, false)) := by
  constructor
  · intro h; simp [trashManagerMoveToTrash, h]
  · intro h he; subst he; simp [trashManagerMoveToTrash, h]

/-- C6: restore of an identifier absent from the index returns false and
leaves the state (index and filesystem) unchanged. -/
theorem restore_unknown_id (st : QState) (entryId : String)
    (h : ∀ e ∈ st.entries, e.id ≠ entryId) :
    restore st entryId = (false, st) := by
  have hf : st.entries.find? (fun e => e.id == entryId) = none := by
    rw [List.find?_eq_none]
    intro e he
    simpa using h e he
  simp [restore, hf]

/-- A state with one quarantined entry, for the C6 witness. -/
def c6State : QState :=
  { fs := [("/q/0_a", { isDir := false, size := 3, childCount := 0 })],
    entries := [{ id := "0", originalPath := "/tmp/a", quarantinePath := "/q/0_a",
                  movedAt := 0, size := 3, isDir := false }],
    nextId := 1, now := 0 }

/-- C6 witness: restoring an id the index does not hold fails without side
effects on a concrete state. -/
theorem restore_unknown_id_witness :
    restore c6State "missing" = (false, c6State) :=
  restore_unknown_id c6State "missing" (by decide)

/-- C9: clearAll always resets the index to empty; the returned count is
the number of objects whose permanent deletion succeeded, so when some
deletion fails the count is strictly below the number of entries that were
listed, and the surviving objects are no longer listed. -/
theorem clearAll_resets_index (rmFail : List String) (st : QState) :
    (clearAll rmFail st).2.entries = []
    ∧ (clearAll rmFail st).1 =
        (st.entries.filter (fun e => !rmFail.contains e.quarantinePath)).length
    ∧ ((∃ e ∈ st.entries, rmFail.contains e.quarantinePath = true) →
        (clearAll rmFail st).1 < st.entries.length) := by
  refine ⟨rfl, ?_, ?_⟩
  · show (st.entries.foldl (clearAllStep rmFail) (0, st.fs)).1 = _
    rw [foldl_clearAllStep_count]
    simp
  · rintro ⟨e, he, hfail⟩
    show (st.entries.foldl (clearAllStep rmFail) (0, st.fs)).1 < _
    rw [foldl_clearAllStep_count]
    simp only [Nat.zero_add]
    exact length_filter_lt_of_mem_not st.entries _ e he (by simpa using hfail)

theorem foldl_cleanupStep_spec (rmFail : List String) (cutoff : Int) :
    ∀ (es : List QEntry) (acc : Nat × List String × FS),
      (∀ e ∈ es, e.movedAt < cutoff → e.quarantinePath ∉ rmFail) →
      (es.foldl (cleanupStep rmFail cutoff) acc).1 =
          acc.1 + (es.filter (fun e => decide (e.movedAt < cutoff))).length
        ∧ (es.foldl (cleanupStep rmFail cutoff) acc).2.1 =
          acc.2.1 ++ (es.filter (fun e => decide (e.movedAt < cutoff))).map (fun e => e.id) := by
  intro es
  induction es with
  | nil => intro acc h; simp
  | cons e t ih =>
    intro acc h
    by_cases hold : e.movedAt < cutoff
    · have hfail : e.quarantinePath ∉ rmFail := h e (by simp) hold
      have hc : rmFail.contains e.quarantinePath = false := by simpa using hfail
      have ht : ∀ e ∈ t, e.movedAt < cutoff → e.quarantinePath ∉ rmFail :=
        fun x hx => h x (List.mem_cons_of_mem _ hx)
      have := ih (acc.1 + 1, acc.2.1 ++ [e.id], FS.removeKey acc.2.2 e.quarantinePath) ht
      constructor
      · simp only [List.foldl_cons, cleanupStep, if_pos hold, hc,
          Bool.false_eq_true, if_false]
        rw [this.1]
        simp [List.filter_cons, hold]
        omega
      · simp only [List.foldl_cons, cleanupStep, if_pos hold, hc,
          Bool.false_eq_true, if_false]
        rw [this.2]
        simp [List.filter_cons, hold]
    · have ht : ∀ e ∈ t, e.movedAt < cutoff → e.quarantinePath ∉ rmFail :=
        fun x hx => h x (List.mem_cons_of_mem _ hx)
      have := ih acc ht
      constructor
      · simp only [List.foldl_cons, cleanupStep, if_neg hold]
        rw [this.1]
        simp [List.filter_cons, hold]
      · simp only [List.foldl_cons, cleanupStep, if_neg hold]
        rw [this.2]
        simp [List.filter_cons, hold]

/-- C5: cleanup removes from the index exactly the entries whose movedAt
timestamp is strictly older than now minus the retention period, and no
others, and returns how many it removed.  The hypotheses state the index
invariant that ids are pairwise distinct (the source keys its index record
by id) and that the permanent deletions themselves succeed (fs.rm errors,
which the source logs and skips, are the rmFail oracle). -/
theorem cleanup_removes_exactly_old (rmFail : List String) (st : QState)
    (retentionDays : Int)
    (hids : st.entries.Pairwise (fun a b => a.id ≠ b.id))
    (hok : ∀ e ∈ st.entries, e.movedAt < st.now - retentionDays →
      e.quarantinePath ∉ rmFail) :
    (cleanup rmFail st retentionDays).1 =
      (st.entries.filter (fun e => decide (e.movedAt < st.now - retentionDays))).length
    ∧ (cleanup rmFail st retentionDays).2.entries =
        st.entries.filter (fun e => !decide (e.movedAt < st.now - retentionDays)) := by
  have hspec := foldl_cleanupStep_spec rmFail (st.now - retentionDays)
    st.entries (0, [], st.fs) hok
  constructor
  · show (st.entries.foldl (cleanupStep rmFail (st.now - retentionDays)) (0, [], st.fs)).1 = _
    rw [hspec.1]
    simp
  · show st.entries.filter _ = _
    apply List.filter_congr
    intro e he
    have hrm : (st.entries.foldl (cleanupStep rmFail (st.now - retentionDays))
        (0, [], st.fs)).2.1 =
        (st.entries.filter (fun e => decide (e.movedAt < st.now - retentionDays))).map
          (fun e => e.id) := by
      rw [hspec.2]; simp
    rw [hrm]
    by_cases hold : e.movedAt < st.now - retentionDays
    · have : e.id ∈ (st.entries.filter
          (fun e => decide (e.movedAt < st.now - retentionDays))).map (fun e => e.id) :=
        List.mem_map_of_mem _ (List.mem_filter.mpr ⟨he, by simpa using hold⟩)
      simp [hold, this]
    · have : e.id ∉ (st.entries.filter
          (fun e => decide (e.movedAt < st.now - retentionDays))).map (fun e => e.id) := by
        intro hmem
        rcases List.mem_map.mp hmem with ⟨e1, he1, hide⟩
        rcases List.mem_filter.mp he1 with ⟨he1m, hold1⟩
        have hne : e1 ≠ e := by
          intro hEq
          rw [hEq] at hold1
          exact hold (by simpa using hold1)
        exact (hids.forall (fun a b hab => hab.symm) he1m he hne) hide
      simp [hold, this]

/-- Entries for the C5 witness: one old enough to expire, one fresh. -/
def c5State : QState :=
  { fs := [("/q/0_a", { isDir := false, size := 3, childCount := 0 }),
           ("/q/1_b", { isDir := false, size := 4, childCount := 0 })],
    entries := [{ id := "0", originalPath := "/tmp/a", quarantinePath := "/q/0_a",
                  movedAt := 0, size := 3, isDir := false },
                { id := "1", originalPath := "/tmp/b", quarantinePath := "/q/1_b",
                  movedAt := 50, size := 4, isDir := false }],
    nextId := 2, now := 60 }

/-- C5 witness: with a 30-day retention at day 60, exactly the entry moved
at day 0 is removed and the count is 1. -/
theorem cleanup_removes_exactly_old_witness :
    (cleanup [] c5State 30).1 =
      (c5State.entries.filter (fun e => decide (e.movedAt < c5State.now - 30))).length
    ∧ (cleanup [] c5State 30).2.entries =
        c5State.entries.filter (fun e => !decide (e.movedAt < c5State.now - 30)) :=
  cleanup_removes_exactly_old [] c5State 30 (by decide) (by decide)

/-- C4: validatePaths never blocks on a missing path — it degrades to the
path-does-not-exist warning — and the result is invalid exactly when some
input exists and is a system path; the system paths recorded are exactly
the blocking inputs.  The embedding of validatePaths is a pure function of
the filesystem (the source performs only read syscalls and catches every
per-path error), so no mutation or escaping exception is possible. -/
theorem validatePaths_spec (cfg : SafetyConfig) (fs : FS) (paths : List String) :
    ((validatePaths cfg fs paths).isValid = false ↔
      ∃ p ∈ paths, FS.pathExists fs p = true ∧ isSystemPath cfg fs p = true)
    ∧ (∀ p ∈ paths, FS.pathExists fs p = false →
        s!"Path does not exist: {p}" ∈ (validatePaths cfg fs paths).warnings)
    ∧ (validatePaths cfg fs paths).systemPaths =
        paths.filter (isBlockingB cfg fs) := by
  refine ⟨?_, ?_, validatePaths_systemPaths cfg fs paths⟩
  · rw [validatePaths_isValid]
    simp only [Bool.eq_false_iff, ne_eq, List.all_eq_true, Bool.not_eq_true',
      Bool.not_eq_false, not_forall, isBlockingB, Bool.and_eq_true, exists_prop,
      not_not]
  · intro p hp he
    exact foldl_validateStep_missing cfg fs paths _ p hp he

theorem systemPaths_eq_paths_of_validPaths_nil (cfg : SafetyConfig) (fs : FS)
    (paths : List String)
    (h : paths.filter (fun p => !(validatePaths cfg fs paths).systemPaths.contains p) = []) :
    (validatePaths cfg fs paths).systemPaths = paths := by
  rw [validatePaths_systemPaths]
  apply List.filter_eq_self.mpr
  intro p hp
  have hmem : p ∈ (validatePaths cfg fs paths).systemPaths := by
    by_contra hnot
    have : p ∈ paths.filter
        (fun p => !(validatePaths cfg fs paths).systemPaths.contains p) :=
      List.mem_filter.mpr ⟨hp, by simpa using hnot⟩
    rw [h] at this
    cases this
  rw [validatePaths_systemPaths] at hmem
  exact (List.mem_filter.mp hmem).2

/-- C2 (as stated): a dry run never changes filesystem state and always
reports as totalSize the summed sizes of the non-system-path subset of the
input. -/
def dryRunClaim (cfg : SafetyConfig) (beh : MechanismBehavior) (qdir : String)
    (st : QState) (paths : List String) : Prop :=
  (safeDelete cfg beh qdir st paths { dryRun := true }).2 = st
  ∧ (safeDelete cfg beh qdir st paths { dryRun := true }).1.totalSize =
      sumSizes st.fs (paths.filter (fun p =>
        !(validatePaths cfg st.fs paths).systemPaths.contains p))

/-- A configuration whose deny-list holds /usr, with one protected file and
one deletable 5-byte file. -/
def cexCfg : SafetyConfig :=
  { systemPaths := ["/usr"], homedir := "/home/u", busyPaths := [] }

/-- The filesystem for the C2/C7 counterexamples. -/
def cexFS : FS :=
  [("/usr/x", { isDir := false, size := 1, childCount := 0 }),
   ("/d/f", { isDir := false, size := 5, childCount := 0 })]

/-- The state for the C2/C7 counterexamples. -/
def cexSt : QState := { fs := cexFS, entries := [], nextId := 0, now := 0 }

/-- A trash mechanism that would succeed, for the C2/C7 counterexamples. -/
def cexBeh : MechanismBehavior :=
  { supported := true, outcome := TrashOutcome.ok, quarantineThrows := false }

/-- C2 is false on the code: with a system path among the inputs and
skipConfirmation unset, the dry run aborts at validation and reports
totalSize 0, not the 5 bytes of the valid subset. -/
theorem safeDelete_dryRun_claim_counterexample :
    ¬ dryRunClaim cexCfg cexBeh "/q" cexSt ["/usr/x", "/d/f"] := by
  unfold dryRunClaim
  decide

/-- C2 (amended): a dry run never changes filesystem or quarantine state,
and whenever the request is not rejected by validation (the inputs validate
or skipConfirmation is set) the reported totalSize is the summed sizes of
the non-system-path subset of the input; when validation fails without
skipConfirmation the call aborts before sizing and reports totalSize 0. -/
theorem safeDelete_dryRun_spec (cfg : SafetyConfig) (beh : MechanismBehavior)
    (qdir : String) (st : QState) (paths : List String) (opts : DeletionOptions)
    (hdr : opts.dryRun = true) :
    (safeDelete cfg beh qdir st paths opts).2 = st
    ∧ ((validatePaths cfg st.fs paths).isValid = true ∨ opts.skipConfirmation = true →
        (safeDelete cfg beh qdir st paths opts).1.totalSize =
          sumSizes st.fs (paths.filter (fun p =>
            !(validatePaths cfg st.fs paths).systemPaths.contains p)))
    ∧ ((validatePaths cfg st.fs paths).isValid = false ∧ opts.skipConfirmation = false →
        paths ≠ [] → (safeDelete cfg beh qdir st paths opts).1.totalSize = 0) := by
  by_cases hemp : paths.isEmpty
  · have hp : paths = [] := by simpa using hemp
    subst hp
    simp [safeDelete, sumSizes]
  · have hemp' : paths.isEmpty = false := by simpa using hemp
    refine ⟨?_, fun hok => ?_, fun hcon _ => ?_⟩
    · unfold safeDelete
      simp only [hemp', Bool.false_eq_true, if_false]
      by_cases hab : (!(validatePaths cfg st.fs paths).isValid &&
          !opts.skipConfirmation) = true
      · simp only [hab, if_true]
      · have hab' : (!(validatePaths cfg st.fs paths).isValid &&
            !opts.skipConfirmation) = false := by simpa using hab
        simp only [hab', Bool.false_eq_true, if_false, hdr, if_true]
    · have hab : (!(validatePaths cfg st.fs paths).isValid &&
          !opts.skipConfirmation) = false := by
        rcases hok with h | h
        · rw [h]; rfl
        · rw [h]; simp
      unfold safeDelete
      simp only [hemp', Bool.false_eq_true, if_false, hab, hdr, if_true]
    · have hab : (!(validatePaths cfg st.fs paths).isValid &&
          !opts.skipConfirmation) = true := by
        rw [hcon.1, hcon.2]; rfl
      unfold safeDelete
      simp only [hemp', Bool.false_eq_true, if_false, hab, if_true]

/-- C2 witness: a dry run over one valid 5-byte file leaves the state
unchanged and reports 5 bytes. -/
theorem safeDelete_dryRun_spec_witness :
    (safeDelete cexCfg cexBeh "/q" cexSt ["/d/f"] { dryRun := true }).2 = cexSt
    ∧ ((validatePaths cexCfg cexSt.fs ["/d/f"]).isValid = true ∨
        ({ dryRun := true } : DeletionOptions).skipConfirmation = true →
        (safeDelete cexCfg cexBeh "/q" cexSt ["/d/f"] { dryRun := true }).1.totalSize =
          sumSizes cexSt.fs (["/d/f"].filter (fun p =>
            !(validatePaths cexCfg cexSt.fs ["/d/f"]).systemPaths.contains p)))
    ∧ ((validatePaths cexCfg cexSt.fs ["/d/f"]).isValid = false ∧
        ({ dryRun := true } : DeletionOptions).skipConfirmation = false →
        ["/d/f"] ≠ [] →
        (safeDelete cexCfg cexBeh "/q" cexSt ["/d/f"] { dryRun := true }).1.totalSize = 0) :=
  safeDelete_dryRun_spec cexCfg cexBeh "/q" cexSt ["/d/f"] { dryRun := true } rfl

/-- C7 (as stated): for a non-empty input, the result reports the system
paths found by validation as failedPaths in every routing branch. -/
def failedPathsReportClaim (cfg : SafetyConfig) (beh : MechanismBehavior)
    (qdir : String) (st : QState) (paths : List String)
    (opts : DeletionOptions) : Prop :=
  paths ≠ [] →
    (safeDelete cfg beh qdir st paths opts).1.failedPaths =
      (validatePaths cfg st.fs paths).systemPaths

/-- C7 is false on the code: when validation fails and skipConfirmation is
unset, safeDelete aborts before the system paths are copied into the
result, and failedPaths stays empty while validation found /usr/x. -/
theorem safeDelete_failedPaths_claim_counterexample :
    ¬ failedPathsReportClaim cexCfg cexBeh "/q" cexSt ["/usr/x", "/d/f"] {} := by
  unfold failedPathsReportClaim
  decide

/-- C7 (amended): for a non-empty input, every branch that survives the
validation gate — dry run, no-valid-paths, trash success, quarantine
fallback after a trash failure or exception, and quarantine failure —
reports exactly the system paths found by validation as failedPaths; the
one exception is the validation abort (validation failed and
skipConfirmation unset), which returns before the copy with an empty
failedPaths. -/
theorem safeDelete_failedPaths_spec (cfg : SafetyConfig) (beh : MechanismBehavior)
    (qdir : String) (st : QState) (paths : List String) (opts : DeletionOptions)
    (hne : paths ≠ []) :
    ((validatePaths cfg st.fs paths).isValid = false ∧ opts.skipConfirmation = false →
      (safeDelete cfg beh qdir st paths opts).1.failedPaths = [])
    ∧ ((validatePaths cfg st.fs paths).isValid = true ∨ opts.skipConfirmation = true →
        (safeDelete cfg beh qdir st paths opts).1.failedPaths =
          (validatePaths cfg st.fs paths).systemPaths) := by
  have hemp : paths.isEmpty = false := by
    cases paths with
    | nil => cases hne rfl
    | cons a t => rfl
  refine ⟨fun hcon => ?_, fun hok => ?_⟩
  · have hab : (!(validatePaths cfg st.fs paths).isValid &&
        !opts.skipConfirmation) = true := by
      rw [hcon.1, hcon.2]; rfl
    unfold safeDelete
    simp only [hemp, Bool.false_eq_true, if_false, hab, if_true]
  · have hab : (!(validatePaths cfg st.fs paths).isValid &&
        !opts.skipConfirmation) = false := by
      rcases hok with h | h
      · rw [h]; rfl
      · rw [h]; simp
    unfold safeDelete
    simp only [hemp, Bool.false_eq_true, if_false, hab]
    by_cases hdry : opts.dryRun
    · simp only [hdry, if_true]
    · have hdry' : opts.dryRun = false := by simpa using hdry
      simp only [hdry', Bool.false_eq_true, if_false]
      by_cases hve : (paths.filter (fun p =>
          !(validatePaths cfg st.fs paths).systemPaths.contains p)).isEmpty
      · simp only [hve, if_true]
        exact (systemPaths_eq_paths_of_validPaths_nil cfg st.fs paths
          (by simpa using hve)).symm
      · have hve' : (paths.filter (fun p =>
            !(validatePaths cfg st.fs paths).systemPaths.contains p)).isEmpty = false := by
          simpa using hve
        simp only [hve', Bool.false_eq_true, if_false]

/-- C7 witness: on a concrete two-path input holding one system path, the
amended report property holds with the hypotheses discharged. -/
theorem safeDelete_failedPaths_spec_witness :
    ((validatePaths cexCfg cexSt.fs ["/usr/x", "/d/f"]).isValid = false ∧
        ({} : DeletionOptions).skipConfirmation = false →
      (safeDelete cexCfg cexBeh "/q" cexSt ["/usr/x", "/d/f"] {}).1.failedPaths = [])
    ∧ ((validatePaths cexCfg cexSt.fs ["/usr/x", "/d/f"]).isValid = true ∨
        ({} : DeletionOptions).skipConfirmation = true →
        (safeDelete cexCfg cexBeh "/q" cexSt ["/usr/x", "/d/f"] {}).1.failedPaths =
          (validatePaths cexCfg cexSt.fs ["/usr/x", "/d/f"]).systemPaths) :=
  safeDelete_failedPaths_spec cexCfg cexBeh "/q" cexSt ["/usr/x", "/d/f"] {}
    (by decide)

/-- C8 (as stated): a prompt built over zero valid items carries exactly
the nothing-to-delete sentence as its message, and the interactive protocol
(callback supplied, confirmation not skipped) short-circuits to a failed
result without invoking the callback. -/
def zeroItemsClaim (cfg : SafetyConfig) (beh : MechanismBehavior) (qdir : String)
    (st : QState) (paths : List String) (opts : DeletionOptions)
    (cb : ConfirmationPrompt → ConfirmationResult) : Prop :=
  (generateConfirmationPrompt cfg beh st paths opts).itemCount = 0 →
    (generateConfirmationPrompt cfg beh st paths opts).message =
        "No valid items to delete."
    ∧ (opts.interactive = true → opts.skipConfirmation = false →
        safeDeleteWithConfirmation cfg beh qdir st paths opts (some cb) =
          ({ success := false, processedPaths := [], failedPaths := paths,
             totalSize := 0,
             method := (generateConfirmationPrompt cfg beh st paths opts).method,
             dryRun := false, errors := ["No valid items to delete"] },
           st, false, opts))

/-- C8 is false on the code as literally stated: the zero-item message is
the nothing-to-delete sentence with the method clause appended, not the
bare sentence. -/
theorem confirmation_zero_items_counterexample :
    ¬ zeroItemsClaim cexCfg cexBeh "/q" cexSt ["/usr/x"]
      { interactive := true } (fun _ => { confirmed := true }) := by
  unfold zeroItemsClaim
  intro h
  have h0 : (generateConfirmationPrompt cexCfg cexBeh cexSt ["/usr/x"]
      { interactive := true }).itemCount = 0 := by decide
  have := (h h0).1
  revert this
  decide

/-- C8 (amended): a prompt built over zero valid items carries the
nothing-to-delete sentence followed by the method clause as its message,
and the interactive protocol (callback supplied, confirmation not skipped)
short-circuits to the failed no-valid-items result without ever invoking
the callback. -/
theorem confirmation_zero_items_spec (cfg : SafetyConfig) (beh : MechanismBehavior)
    (qdir : String) (st : QState) (paths : List String) (opts : DeletionOptions)
    (cb : ConfirmationPrompt → ConfirmationResult)
    (h0 : (generateConfirmationPrompt cfg beh st paths opts).itemCount = 0)
    (hint : opts.interactive = true) (hskip : opts.skipConfirmation = false) :
    (generateConfirmationPrompt cfg beh st paths opts).message =
        "No valid items to delete." ++
          (if (generateConfirmationPrompt cfg beh st paths opts).method = Method.trash
          then " Items will be moved to trash and can be restored from there."
          else " Items will be quarantined and can be restored using clearcli.")
    ∧ safeDeleteWithConfirmation cfg beh qdir st paths opts (some cb) =
        ({ success := false, processedPaths := [], failedPaths := paths,
           totalSize := 0,
           method := (generateConfirmationPrompt cfg beh st paths opts).method,
           dryRun := false, errors := ["No valid items to delete"] },
         st, false, opts) := by
  have hvc : (paths.filter (fun p =>
      !(validatePaths cfg st.fs paths).systemPaths.contains p)).length = 0 := h0
  constructor
  · show (generateConfirmationPrompt cfg beh st paths opts).message = _
    unfold generateConfirmationPrompt at h0 ⊢
    simp only at h0 ⊢
    rw [h0]
    simp
  · unfold safeDeleteWithConfirmation
    simp only [hint, hskip, Bool.not_false, Bool.and_self, if_true, h0, if_pos rfl]

/-- C8 witness: for the one-system-path input the prompt counts zero items,
its message is the nothing-to-delete sentence plus the method clause, and
the interactive protocol returns the failed result without consulting the
callback. -/
theorem confirmation_zero_items_spec_witness :
    (generateConfirmationPrompt cexCfg cexBeh cexSt ["/usr/x"]
        { interactive := true }).message =
        "No valid items to delete." ++
          (if (generateConfirmationPrompt cexCfg cexBeh cexSt ["/usr/x"]
              { interactive := true }).method = Method.trash
          then " Items will be moved to trash and can be restored from there."
          else " Items will be quarantined and can be restored using clearcli.")
    ∧ safeDeleteWithConfirmation cexCfg cexBeh "/q" cexSt ["/usr/x"]
        { interactive := true } (some (fun _ => { confirmed := true })) =
        ({ success := false, processedPaths := [], failedPaths := ["/usr/x"],
           totalSize := 0,
           method := (generateConfirmationPrompt cexCfg cexBeh cexSt ["/usr/x"]
             { interactive := true }).method,
           dryRun := false, errors := ["No valid items to delete"] },
         cexSt, false, { interactive := true }) :=
  confirmation_zero_items_spec cexCfg cexBeh "/q" cexSt ["/usr/x"]
    { interactive := true } (fun _ => { confirmed := true }) (by decide) rfl rfl

/-! ## The quarantine/restore round trip (C3) -/

theorem find?_append_of_none {α : Type} (p : α → Bool) :
    ∀ (l1 l2 : List α), l1.find? p = none →
      (l1 ++ l2).find? p = l2.find? p := by
  intro l1
  induction l1 with
  | nil => intro l2 h; rfl
  | cons x t ih =>
    intro l2 h
    by_cases hp : p x
    · rw [List.find?_cons_of_pos _ hp] at h; cases h
    · rw [List.find?_cons_of_neg _ hp] at h
      rw [List.cons_append, List.find?_cons_of_neg _ hp]
      exact ih l2 h

theorem specEntries_congr (qdir : String) (now : Int) :
    ∀ (ps : List String) (n : Nat) (fs1 fs0 : FS),
      (∀ q ∈ ps, FS.stat fs1 q = FS.stat fs0 q) →
      specEntries qdir fs1 now n ps = specEntries qdir fs0 now n ps := by
  intro ps
  induction ps with
  | nil => intro n fs1 fs0 h; rfl
  | cons p t ih =>
    intro n fs1 fs0 h
    unfold specEntries
    rw [h p (by simp), ih (n + 1) fs1 fs0 (fun q hq => h q (by simp [hq]))]

theorem specEntries_map_originalPath (qdir : String) (fs : FS) (now : Int) :
    ∀ (ps : List String) (n : Nat),
      (specEntries qdir fs now n ps).map (fun e => e.originalPath) = ps := by
  intro ps
  induction ps with
  | nil => intro n; rfl
  | cons p t ih =>
    intro n
    unfold specEntries
    rw [List.map_cons, ih (n + 1)]

theorem quarantine_fold_spec (qdir : String) :
    ∀ (ps : List String) (st0 : QState) (acc0 : List QEntry),
      (∀ p ∈ ps, FS.pathExists st0.fs p = true) →
      ps.Nodup →
      (specEntries qdir st0.fs st0.now st0.nextId ps).Pairwise
        (fun a b => a.quarantinePath ≠ b.quarantinePath) →
      (∀ e ∈ specEntries qdir st0.fs st0.now st0.nextId ps,
        FS.pathExists st0.fs e.quarantinePath = false ∧ e.quarantinePath ∉ ps) →
      (ps.foldl (quarantineStep qdir) (acc0, st0)).1 =
          acc0 ++ specEntries qdir st0.fs st0.now st0.nextId ps
        ∧ (ps.foldl (quarantineStep qdir) (acc0, st0)).2.entries =
          st0.entries ++ specEntries qdir st0.fs st0.now st0.nextId ps
        ∧ (ps.foldl (quarantineStep qdir) (acc0, st0)).2.nextId =
          st0.nextId + ps.length
        ∧ (ps.foldl (quarantineStep qdir) (acc0, st0)).2.now = st0.now
        ∧ (∀ e ∈ specEntries qdir st0.fs st0.now st0.nextId ps,
            FS.stat (ps.foldl (quarantineStep qdir) (acc0, st0)).2.fs
              e.quarantinePath = FS.stat st0.fs e.originalPath)
        ∧ (∀ p ∈ ps,
            FS.stat (ps.foldl (quarantineStep qdir) (acc0, st0)).2.fs p = none)
        ∧ (∀ q, q ∉ ps →
            (∀ e ∈ specEntries qdir st0.fs st0.now st0.nextId ps,
              q ≠ e.quarantinePath) →
            FS.stat (ps.foldl (quarantineStep qdir) (acc0, st0)).2.fs q =
              FS.stat st0.fs q) := by
  intro ps
  induction ps with
  | nil =>
    intro st0 acc0 hex hnd hg1 hg2
    refine ⟨by simp [specEntries], by simp [specEntries], by simp, rfl, ?_, ?_, ?_⟩
    · intro e he; cases he
    · intro p hp; cases hp
    · intro q hq hs; rfl
  | cons p ps ih =>
    intro st0 acc0 hex hnd hg1 hg2
    obtain ⟨obj, hobj⟩ := Option.isSome_iff_exists.mp (hex p (by simp))
    set E0 : QEntry :=
      { id := toString st0.nextId, originalPath := p,
        quarantinePath := mkQuarantinePath qdir st0.nextId p,
        movedAt := st0.now, size := obj.size, isDir := obj.isDir } with hE0
    set g0 := mkQuarantinePath qdir st0.nextId p with hg0def
    set ST1 : QState :=
      { fs := FS.rename st0.fs p g0, entries := st0.entries ++ [E0],
        nextId := st0.nextId + 1, now := st0.now } with hST1
    have hspec : specEntries qdir st0.fs st0.now st0.nextId (p :: ps) =
        E0 :: specEntries qdir st0.fs st0.now (st0.nextId + 1) ps := by
      have h0 : specEntries qdir st0.fs st0.now st0.nextId (p :: ps) =
          { id := toString st0.nextId, originalPath := p,
            quarantinePath := mkQuarantinePath qdir st0.nextId p,
            movedAt := st0.now,
            size := (FS.stat st0.fs p).elim 0 (fun o => o.size),
            isDir := (FS.stat st0.fs p).elim false (fun o => o.isDir) } ::
            specEntries qdir st0.fs st0.now (st0.nextId + 1) ps := rfl
      rw [h0, hobj]
      rfl
    have hstep : quarantineStep qdir (acc0, st0) p = (acc0 ++ [E0], ST1) := by
      unfold quarantineStep quarantineFile
      rw [hobj]
    have hE0mem : E0 ∈ specEntries qdir st0.fs st0.now st0.nextId (p :: ps) := by
      rw [hspec]; simp
    have hg0fresh : FS.pathExists st0.fs g0 = false ∧ g0 ∉ (p :: ps) := hg2 E0 hE0mem
    have hpg0 : p ≠ g0 := fun h => hg0fresh.2 (h ▸ List.mem_cons_self p ps)
    have hpnotin : p ∉ ps := (List.nodup_cons.mp hnd).1
    have hpres : ∀ q ∈ ps, FS.stat ST1.fs q = FS.stat st0.fs q := by
      intro q hq
      have hqp : q ≠ p := fun h => hpnotin (h ▸ hq)
      have hqg : q ≠ g0 := fun h => hg0fresh.2 (h ▸ List.mem_cons_of_mem p hq)
      exact FS.stat_rename_other st0.fs p g0 q hqp hqg
    have hcongr : specEntries qdir ST1.fs st0.now (st0.nextId + 1) ps =
        specEntries qdir st0.fs st0.now (st0.nextId + 1) ps :=
      specEntries_congr qdir st0.now ps (st0.nextId + 1) ST1.fs st0.fs hpres
    have htailmem : ∀ e ∈ specEntries qdir st0.fs st0.now (st0.nextId + 1) ps,
        e ∈ specEntries qdir st0.fs st0.now st0.nextId (p :: ps) := by
      intro e he; rw [hspec]; exact List.mem_cons_of_mem _ he
    have htail_orig : ∀ e ∈ specEntries qdir st0.fs st0.now (st0.nextId + 1) ps,
        e.originalPath ∈ ps := by
      intro e he
      have := specEntries_map_originalPath qdir st0.fs st0.now ps (st0.nextId + 1)
      rw [← this]
      exact List.mem_map_of_mem _ he
    have hg1' : (specEntries qdir st0.fs st0.now (st0.nextId + 1) ps).Pairwise
        (fun a b => a.quarantinePath ≠ b.quarantinePath) := by
      rw [hspec] at hg1
      exact hg1.of_cons
    have hg1head : ∀ e ∈ specEntries qdir st0.fs st0.now (st0.nextId + 1) ps,
        g0 ≠ e.quarantinePath := by
      rw [hspec] at hg1
      exact (List.pairwise_cons.mp hg1).1
    have hex1 : ∀ q ∈ ps, FS.pathExists ST1.fs q = true := by
      intro q hq
      unfold FS.pathExists
      rw [hpres q hq]
      exact hex q (List.mem_cons_of_mem p hq)
    have hnd1 : ps.Nodup := (List.nodup_cons.mp hnd).2
    have hg2' : ∀ e ∈ specEntries qdir ST1.fs ST1.now ST1.nextId ps,
        FS.pathExists ST1.fs e.quarantinePath = false ∧ e.quarantinePath ∉ ps := by
      show ∀ e ∈ specEntries qdir ST1.fs st0.now (st0.nextId + 1) ps, _
      rw [hcongr]
      intro e he
      have hmem := htailmem e he
      have h2 := hg2 e hmem
      have hqnp : e.quarantinePath ≠ p :=
        fun h => h2.2 (h ▸ List.mem_cons_self p ps)
      have hqng : e.quarantinePath ≠ g0 := fun h => hg1head e he h.symm
      constructor
      · unfold FS.pathExists
        rw [show ST1.fs = FS.rename st0.fs p g0 from rfl,
          FS.stat_rename_other st0.fs p g0 e.quarantinePath hqnp hqng]
        exact h2.1
      · exact fun h => h2.2 (List.mem_cons_of_mem p h)
    have hg1'' : (specEntries qdir ST1.fs ST1.now ST1.nextId ps).Pairwise
        (fun a b => a.quarantinePath ≠ b.quarantinePath) := by
      show (specEntries qdir ST1.fs st0.now (st0.nextId + 1) ps).Pairwise _
      rw [hcongr]
      exact hg1'
    have IH := ih ST1 (acc0 ++ [E0]) hex1 hnd1 hg1'' hg2'
    rw [show specEntries qdir ST1.fs ST1.now ST1.nextId ps =
      specEntries qdir st0.fs st0.now (st0.nextId + 1) ps from hcongr] at IH
    have hfold : (p :: ps).foldl (quarantineStep qdir) (acc0, st0) =
        ps.foldl (quarantineStep qdir) (acc0 ++ [E0], ST1) := by
      rw [List.foldl_cons, hstep]
    rw [hfold, hspec]
    obtain ⟨IH1, IH2, IH3, IH4, IH5, IH6, IH7⟩ := IH
    refine ⟨?_, ?_, ?_, ?_, ?_, ?_, ?_⟩
    · rw [IH1]; simp
    · rw [IH2]
      show (st0.entries ++ [E0]) ++ _ = _
      simp
    · rw [IH3]
      show st0.nextId + 1 + ps.length = st0.nextId + (ps.length + 1)
      omega
    · rw [IH4]
    · intro e he
      rcases List.mem_cons.mp he with rfl | he'
      · have hg0ps : g0 ∉ ps := fun h => hg0fresh.2 (List.mem_cons_of_mem p h)
        have := IH7 g0 hg0ps (fun e' he' => hg1head e' he')
        show FS.stat _ E0.quarantinePath = FS.stat st0.fs E0.originalPath
        have hqE0 : E0.quarantinePath = g0 := rfl
        have hoE0 : E0.originalPath = p := rfl
        rw [hqE0, hoE0, this]
        show FS.stat (FS.rename st0.fs p g0) g0 = FS.stat st0.fs p
        exact FS.stat_rename_dst st0.fs p g0 (by rw [hobj]; rfl)
      · rw [IH5 e he']
        exact hpres e.originalPath (htail_orig e he')
    · intro p' hp'
      rcases List.mem_cons.mp hp' with rfl | hp''
      · have hp'ps : p' ∉ ps := hpnotin
        have hne : ∀ e ∈ specEntries qdir st0.fs st0.now (st0.nextId + 1) ps,
            p' ≠ e.quarantinePath := by
          intro e he h
          exact (hg2 e (htailmem e he)).2 (h ▸ List.mem_cons_self p' ps)
        have := IH7 p' hp'ps hne
        rw [this]
        show FS.stat (FS.rename st0.fs p' g0) p' = none
        exact FS.stat_rename_src st0.fs p' g0 hpg0
      · exact IH6 p' hp''
    · intro q hq hs
      have hqps : q ∉ ps := fun h => hq (List.mem_cons_of_mem p h)
      have hqp : q ≠ p := fun h => hq (h ▸ List.mem_cons_self p ps)
      have hqg : q ≠ g0 := hs E0 (List.mem_cons_self _ _)
      have hstail : ∀ e ∈ specEntries qdir st0.fs st0.now (st0.nextId + 1) ps,
          q ≠ e.quarantinePath := by
        intro e he
        exact hs e (List.mem_cons_of_mem _ he)
      rw [IH7 q hqps hstail]
      show FS.stat (FS.rename st0.fs p g0) q = _
      exact FS.stat_rename_other st0.fs p g0 q hqp hqg

theorem restore_fold_spec :
    ∀ (rem base : List QEntry) (stB : QState) (bs0 : List Bool),
      stB.entries = base ++ rem →
      (∀ e ∈ rem, FS.pathExists stB.fs e.quarantinePath = true) →
      (∀ e ∈ rem, FS.pathExists stB.fs e.originalPath = false) →
      rem.Pairwise (fun a b => a.quarantinePath ≠ b.quarantinePath) →
      rem.Pairwise (fun a b => a.originalPath ≠ b.originalPath) →
      (∀ a ∈ rem, ∀ b ∈ rem, a.quarantinePath ≠ b.originalPath) →
      (∀ b ∈ base, ∀ e ∈ rem, b.id ≠ e.id) →
      rem.Pairwise (fun a b => a.id ≠ b.id) →
      ((rem.map (fun e => e.id)).foldl restoreAllStep (bs0, stB)).1 =
          bs0 ++ List.replicate rem.length true
        ∧ ((rem.map (fun e => e.id)).foldl restoreAllStep (bs0, stB)).2.entries = base
        ∧ ((rem.map (fun e => e.id)).foldl restoreAllStep (bs0, stB)).2.nextId =
          stB.nextId
        ∧ ((rem.map (fun e => e.id)).foldl restoreAllStep (bs0, stB)).2.now = stB.now
        ∧ (∀ e ∈ rem,
            FS.stat ((rem.map (fun e => e.id)).foldl restoreAllStep (bs0, stB)).2.fs
              e.originalPath = FS.stat stB.fs e.quarantinePath)
        ∧ (∀ e ∈ rem,
            FS.stat ((rem.map (fun e => e.id)).foldl restoreAllStep (bs0, stB)).2.fs
              e.quarantinePath = none)
        ∧ (∀ q, (∀ e ∈ rem, q ≠ e.originalPath ∧ q ≠ e.quarantinePath) →
            FS.stat ((rem.map (fun e => e.id)).foldl restoreAllStep (bs0, stB)).2.fs q =
              FS.stat stB.fs q) := by
  intro rem
  induction rem with
  | nil =>
    intro base stB bs0 hent hq ho hqnd hond hdisj hbase hidnd
    refine ⟨by simp, by simpa using hent, rfl, rfl, ?_, ?_, fun q hqn => rfl⟩
    · intro e he; cases he
    · intro e he; cases he
  | cons e rem ih =>
    intro base stB bs0 hent hq ho hqnd hond hdisj hbase hidnd
    have hfind : stB.entries.find? (fun x => x.id == e.id) = some e := by
      rw [hent]
      rw [find?_append_of_none _ base _ ?hb]
      case hb =>
        rw [List.find?_eq_none]
        intro b hb
        simpa using hbase b hb e (List.mem_cons_self _ _)
      rw [List.find?_cons_of_pos]
      simp
    have hqe : FS.pathExists stB.fs e.quarantinePath = true :=
      hq e (List.mem_cons_self _ _)
    have hoe : FS.pathExists stB.fs e.originalPath = false :=
      ho e (List.mem_cons_self _ _)
    have hqo : e.quarantinePath ≠ e.originalPath :=
      hdisj e (List.mem_cons_self _ _) e (List.mem_cons_self _ _)
    have hgo : restoreGo stB.fs e.originalPath (stB.fs.length + 1)
        e.originalPath 1 = e.originalPath := by
      simp [restoreGo, hoe]
    have hrest : restore stB e.id =
        (true,
          { stB with
            fs := FS.rename stB.fs e.quarantinePath e.originalPath,
            entries := stB.entries.filter (fun x => x.id != e.id) }) := by
      unfold restore
      rw [hfind]
      simp only [hqe, Bool.not_true, Bool.false_eq_true, if_false, hgo]
    have hfilter : stB.entries.filter (fun x => x.id != e.id) = base ++ rem := by
      rw [hent, List.filter_append]
      have h1 : base.filter (fun x => x.id != e.id) = base := by
        apply List.filter_eq_self.mpr
        intro b hb
        simpa using hbase b hb e (List.mem_cons_self _ _)
      have h2 : (e :: rem).filter (fun x => x.id != e.id) = rem := by
        rw [List.filter_cons]
        simp only [bne_self_eq_false, Bool.false_eq_true, if_false]
        apply List.filter_eq_self.mpr
        intro x hx
        have := (List.pairwise_cons.mp hidnd).1 x hx
        simpa using this.symm
      rw [h1, h2]
    set fs1 := FS.rename stB.fs e.quarantinePath e.originalPath with hfs1
    set ST1 : QState :=
      { stB with
        fs := fs1,
        entries := stB.entries.filter (fun x => x.id != e.id) } with hST1def
    have hfold1 : ((e :: rem).map (fun x => x.id)).foldl restoreAllStep (bs0, stB) =
        (rem.map (fun x => x.id)).foldl restoreAllStep (bs0 ++ [true], ST1) := by
      rw [List.map_cons, List.foldl_cons]
      unfold restoreAllStep
      rw [hrest]
    have hpres : ∀ x ∈ rem,
        FS.stat fs1 x.quarantinePath = FS.stat stB.fs x.quarantinePath
        ∧ FS.stat fs1 x.originalPath = FS.stat stB.fs x.originalPath := by
      intro x hx
      have hxq_ne_eq : x.quarantinePath ≠ e.quarantinePath := by
        have := (List.pairwise_cons.mp hqnd).1 x hx
        exact this.symm
      have hxq_ne_eo : x.quarantinePath ≠ e.originalPath :=
        hdisj x (List.mem_cons_of_mem _ hx) e (List.mem_cons_self _ _)
      have hxo_ne_eo : x.originalPath ≠ e.originalPath := by
        have := (List.pairwise_cons.mp hond).1 x hx
        exact this.symm
      have hxo_ne_eq : x.originalPath ≠ e.quarantinePath := by
        have := hdisj e (List.mem_cons_self _ _) x (List.mem_cons_of_mem _ hx)
        exact this.symm
      exact ⟨FS.stat_rename_other _ _ _ _ hxq_ne_eq hxq_ne_eo,
        FS.stat_rename_other _ _ _ _ hxo_ne_eq hxo_ne_eo⟩
    have hq1 : ∀ x ∈ rem, FS.pathExists ST1.fs x.quarantinePath = true := by
      intro x hx
      show FS.pathExists fs1 x.quarantinePath = true
      unfold FS.pathExists
      rw [(hpres x hx).1]
      exact hq x (List.mem_cons_of_mem _ hx)
    have ho1 : ∀ x ∈ rem, FS.pathExists ST1.fs x.originalPath = false := by
      intro x hx
      show FS.pathExists fs1 x.originalPath = false
      unfold FS.pathExists
      rw [(hpres x hx).2]
      exact ho x (List.mem_cons_of_mem _ hx)
    have hent1 : ST1.entries = base ++ rem := hfilter
    have hdisj1 : ∀ a ∈ rem, ∀ b ∈ rem, a.quarantinePath ≠ b.originalPath :=
      fun a ha b hb =>
        hdisj a (List.mem_cons_of_mem _ ha) b (List.mem_cons_of_mem _ hb)
    have hbase1 : ∀ b ∈ base, ∀ x ∈ rem, b.id ≠ x.id :=
      fun b hb x hx => hbase b hb x (List.mem_cons_of_mem _ hx)
    have IH := ih base ST1 (bs0 ++ [true]) hent1 hq1 ho1
      (List.pairwise_cons.mp hqnd).2 (List.pairwise_cons.mp hond).2 hdisj1 hbase1
      (List.pairwise_cons.mp hidnd).2
    obtain ⟨IH1, IH2, IH3, IH4, IH5, IH6, IH7⟩ := IH
    rw [hfold1]
    refine ⟨?_, IH2, IH3, IH4, ?_, ?_, ?_⟩
    · rw [IH1]
      simp [List.replicate_succ]
    · intro x hx
      rcases List.mem_cons.mp hx with rfl | hx'
      · have hxavoid : ∀ y ∈ rem, x.originalPath ≠ y.originalPath ∧
            x.originalPath ≠ y.quarantinePath := by
          intro y hy
          constructor
          · exact (List.pairwise_cons.mp hond).1 y hy
          · have := hdisj y (List.mem_cons_of_mem _ hy) x (List.mem_cons_self _ _)
            exact this.symm
        rw [IH7 x.originalPath hxavoid]
        show FS.stat (FS.rename stB.fs x.quarantinePath x.originalPath)
          x.originalPath = _
        exact FS.stat_rename_dst stB.fs x.quarantinePath x.originalPath
          (by unfold FS.pathExists at hqe; exact hqe)
      · rw [IH5 x hx']
        exact (hpres x hx').1
    · intro x hx
      rcases List.mem_cons.mp hx with rfl | hx'
      · have hxavoid : ∀ y ∈ rem, x.quarantinePath ≠ y.originalPath ∧
            x.quarantinePath ≠ y.quarantinePath := by
          intro y hy
          constructor
          · exact hdisj x (List.mem_cons_self _ _) y (List.mem_cons_of_mem _ hy)
          · exact (List.pairwise_cons.mp hqnd).1 y hy
        rw [IH7 x.quarantinePath hxavoid]
        show FS.stat (FS.rename stB.fs x.quarantinePath x.originalPath)
          x.quarantinePath = none
        exact FS.stat_rename_src stB.fs x.quarantinePath x.originalPath hqo
      · exact IH6 x hx'
    · intro q hqn
      have hqn1 : ∀ x ∈ rem, q ≠ x.originalPath ∧ q ≠ x.quarantinePath :=
        fun x hx => hqn x (List.mem_cons_of_mem _ hx)
      rw [IH7 q hqn1]
      have h1 := (hqn e (List.mem_cons_self _ _)).1
      have h2 := (hqn e (List.mem_cons_self _ _)).2
      show FS.stat (FS.rename stB.fs e.quarantinePath e.originalPath) q = _
      exact FS.stat_rename_other stB.fs e.quarantinePath e.originalPath q h2 h1

/-- C3: quarantining a batch of existing, distinct paths and then restoring
every resulting entry moves every object back to its original path, every
restore call reports success, and afterwards the quarantine index no longer
lists any of the produced ids (it is exactly the index from before the
batch).  The freshness hypotheses spell out what randomUUID provides in the
source: the generated quarantine targets and ids collide with nothing — not
with tracked objects, not with the batch, not with each other, not with the
existing index. -/
theorem quarantine_restore_roundtrip (qdir : String) (st : QState)
    (paths : List String)
    (hex : ∀ p ∈ paths, FS.pathExists st.fs p = true)
    (hnd : paths.Nodup)
    (hg1 : (specEntries qdir st.fs st.now st.nextId paths).Pairwise
      (fun a b => a.quarantinePath ≠ b.quarantinePath))
    (hg2 : ∀ e ∈ specEntries qdir st.fs st.now st.nextId paths,
      FS.pathExists st.fs e.quarantinePath = false ∧ e.quarantinePath ∉ paths)
    (hid1 : (specEntries qdir st.fs st.now st.nextId paths).Pairwise
      (fun a b => a.id ≠ b.id))
    (hid2 : ∀ e0 ∈ st.entries, ∀ e ∈ specEntries qdir st.fs st.now st.nextId paths,
      e0.id ≠ e.id) :
    (quarantine qdir st paths).1.map (fun e => e.originalPath) = paths
    ∧ (restoreAll (quarantine qdir st paths).2
        ((quarantine qdir st paths).1.map (fun e => e.id))).1 =
      List.replicate paths.length true
    ∧ (∀ p ∈ paths,
        FS.stat (restoreAll (quarantine qdir st paths).2
          ((quarantine qdir st paths).1.map (fun e => e.id))).2.fs p =
          FS.stat st.fs p)
    ∧ (restoreAll (quarantine qdir st paths).2
        ((quarantine qdir st paths).1.map (fun e => e.id))).2.entries = st.entries
    ∧ (∀ e ∈ (quarantine qdir st paths).1,
        ∀ f ∈ (restoreAll (quarantine qdir st paths).2
          ((quarantine qdir st paths).1.map (fun e => e.id))).2.entries,
        f.id ≠ e.id) := by
  by_cases hpe : paths = []
  · subst hpe
    refine ⟨rfl, rfl, ?_, rfl, ?_⟩
    · intro p hp; cases hp
    · intro e he; cases he
  · have hemp : paths.isEmpty = false := by
      cases paths with
      | nil => cases hpe rfl
      | cons a t => rfl
    have hqeq : quarantine qdir st paths =
        paths.foldl (quarantineStep qdir) ([], st) := by
      unfold quarantine
      rw [hemp]
      rfl
    obtain ⟨A1, A2, A3, A4, A5, A6, A7⟩ :=
      quarantine_fold_spec qdir paths st [] hex hnd hg1 hg2
    rw [List.nil_append] at A1
    have horig := specEntries_map_originalPath qdir st.fs st.now paths st.nextId
    have hlen : (specEntries qdir st.fs st.now st.nextId paths).length =
        paths.length := by
      conv_rhs => rw [← horig]
      rw [List.length_map]
    have hmemorig : ∀ e ∈ specEntries qdir st.fs st.now st.nextId paths,
        e.originalPath ∈ paths := by
      intro e he
      rw [← horig]
      exact List.mem_map_of_mem _ he
    have hq : ∀ e ∈ specEntries qdir st.fs st.now st.nextId paths,
        FS.pathExists (paths.foldl (quarantineStep qdir) ([], st)).2.fs
          e.quarantinePath = true := by
      intro e he
      unfold FS.pathExists
      rw [A5 e he]
      exact hex e.originalPath (hmemorig e he)
    have ho : ∀ e ∈ specEntries qdir st.fs st.now st.nextId paths,
        FS.pathExists (paths.foldl (quarantineStep qdir) ([], st)).2.fs
          e.originalPath = false := by
      intro e he
      unfold FS.pathExists
      rw [A6 e.originalPath (hmemorig e he)]
      rfl
    have hond : (specEntries qdir st.fs st.now st.nextId paths).Pairwise
        (fun a b => a.originalPath ≠ b.originalPath) := by
      have hnd' := hnd
      rw [← horig] at hnd'
      exact List.pairwise_map.mp hnd'
    have hdisj : ∀ a ∈ specEntries qdir st.fs st.now st.nextId paths,
        ∀ b ∈ specEntries qdir st.fs st.now st.nextId paths,
        a.quarantinePath ≠ b.originalPath := by
      intro a ha b hb h
      exact (hg2 a ha).2 (h ▸ hmemorig b hb)
    obtain ⟨B1, B2, B3, B4, B5, B6, B7⟩ :=
      restore_fold_spec (specEntries qdir st.fs st.now st.nextId paths)
        st.entries (paths.foldl (quarantineStep qdir) ([], st)).2 [] A2 hq ho
        hg1 hond hdisj hid2 hid1
    have hreq : restoreAll (quarantine qdir st paths).2
        ((quarantine qdir st paths).1.map (fun e => e.id)) =
        ((specEntries qdir st.fs st.now st.nextId paths).map (fun e => e.id)).foldl
          restoreAllStep ([], (paths.foldl (quarantineStep qdir) ([], st)).2) := by
      rw [hqeq, A1]
      rfl
    refine ⟨?_, ?_, ?_, ?_, ?_⟩
    · rw [hqeq, A1, horig]
    · rw [hreq, B1, hlen]
      rfl
    · intro p hp
      rw [hreq]
      have hp' : p ∈ (specEntries qdir st.fs st.now st.nextId paths).map
          (fun e => e.originalPath) := by rw [horig]; exact hp
      obtain ⟨e, he, heo⟩ := List.mem_map.mp hp'
      rw [← heo, B5 e he, A5 e he]
    · rw [hreq, B2]
    · intro e he f hf
      rw [hreq, B2] at hf
      rw [hqeq, A1] at he
      exact hid2 f hf e he

/-- The starting state of the C3 witness: two tracked files, an empty
index. -/
def c3St : QState :=
  { fs := [("/h/a", { isDir := false, size := 3, childCount := 0 }),
           ("/h/b", { isDir := false, size := 4, childCount := 0 })],
    entries := [], nextId := 0, now := 0 }

/-- The batch of the C3 witness. -/
def c3Paths : List String := ["/h/a", "/h/b"]

/-- C3 witness: quarantining the two files and restoring both produced ids
succeeds, puts both objects back where they were, and empties the index. -/
theorem quarantine_restore_roundtrip_witness :
    (quarantine "/q" c3St c3Paths).1.map (fun e => e.originalPath) = c3Paths
    ∧ (restoreAll (quarantine "/q" c3St c3Paths).2
        ((quarantine "/q" c3St c3Paths).1.map (fun e => e.id))).1 =
      List.replicate c3Paths.length true
    ∧ (∀ p ∈ c3Paths,
        FS.stat (restoreAll (quarantine "/q" c3St c3Paths).2
          ((quarantine "/q" c3St c3Paths).1.map (fun e => e.id))).2.fs p =
          FS.stat c3St.fs p)
    ∧ (restoreAll (quarantine "/q" c3St c3Paths).2
        ((quarantine "/q" c3St c3Paths).1.map (fun e => e.id))).2.entries =
      c3St.entries
    ∧ (∀ e ∈ (quarantine "/q" c3St c3Paths).1,
        ∀ f ∈ (restoreAll (quarantine "/q" c3St c3Paths).2
          ((quarantine "/q" c3St c3Paths).1.map (fun e => e.id))).2.entries,
        f.id ≠ e.id) :=
  quarantine_restore_roundtrip "/q" c3St c3Paths (by decide) (by decide)
    (by decide) (by decide) (by decide) (by decide)

end ClearCli
